import Mathlib

/-!
Shallow embedding of the braincrub Brainfuck interpreter
(`src/parser.rs`, `src/interpreter.rs`, `src/io.rs`), together with proofs
about the parser's jump-resolution invariants, the interpreter's dispatch
behaviour, and the prompt-string parsing of program values.

Rust `usize` indices become `Nat`; `u8` cell values become `Nat` with the
checked-arithmetic bounds written out; fallible operations return `Except`;
a Rust panic is a distinguished outcome of the model.
-/

namespace Braincrub

/-! ## Parser data model (`src/parser.rs`) -/

/-- The eight instruction kinds (`enum BrainfuckOperations`). -/
inductive BrainfuckOperations where
  | MovePointerRight
  | MovePointerLeft
  | IncrementByOneCurrentCell
  | DecrementByOneCurrentCell
  | InputCommand
  | OutputCommand
  | LoopStart
  | LoopEnd
deriving DecidableEq, Repr

/-- `struct CommandInformation`. -/
structure CommandInformation where
  operation : BrainfuckOperations
  next_position : Nat
deriving DecidableEq, Repr

/-- `struct LoopInformation`. -/
structure LoopInformation where
  operation : BrainfuckOperations
  next_position_as_true : Nat
  next_position_as_false : Nat
deriving DecidableEq, Repr

/-- `enum BrainfuckNodeAST`. -/
inductive BrainfuckNodeAST where
  | Command : CommandInformation → BrainfuckNodeAST
  | Loop : LoopInformation → BrainfuckNodeAST
  | NoOp
deriving DecidableEq, Repr

/-- `enum ParserErrors`. -/
inductive ParserErrors where
  | MissingTerminantedLoop
  | MissingOpenLoop
deriving DecidableEq, Repr

/-- `fn map_char_to_brainfuck_operation` in `src/parser.rs`. -/
def map_char_to_brainfuck_operation (token : Char) : Option BrainfuckOperations :=
  match token with
  | '>' => some .MovePointerRight
  | '<' => some .MovePointerLeft
  | '+' => some .IncrementByOneCurrentCell
  | '-' => some .DecrementByOneCurrentCell
  | ',' => some .InputCommand
  | '.' => some .OutputCommand
  | '[' => some .LoopStart
  | ']' => some .LoopEnd
  | _ => none

/-- The `while let Some(token) ...` loop of `from_source_to_node_ast`,
with the stack of pending loop-start indices (`loop_start_position`, top
of the Rust `Vec` = head of the list) and the nodes built so far
(`program_ast_vec`) made explicit, followed by the final unmatched-open
check. -/
def parseChars : List Char → List Nat → List BrainfuckNodeAST →
    Except ParserErrors (List BrainfuckNodeAST)
  | [], loop_start_position, program_ast_vec =>
    if loop_start_position.length > 0 then
      .error .MissingTerminantedLoop
    else
      .ok program_ast_vec
  | token :: rest, loop_start_position, program_ast_vec =>
    match map_char_to_brainfuck_operation token with
    | some .LoopStart =>
      parseChars rest (program_ast_vec.length :: loop_start_position)
        (program_ast_vec ++
          [.Command ⟨.LoopStart, program_ast_vec.length + 1⟩])
    | some .LoopEnd =>
      match loop_start_position with
      | [] => .error .MissingOpenLoop
      | last_position_recorded :: stack_rest =>
        let with_end := program_ast_vec ++ [.Command ⟨.LoopEnd, last_position_recorded⟩]
        parseChars rest stack_rest
          (with_end.set last_position_recorded
            (.Loop ⟨.LoopStart, last_position_recorded + 1, with_end.length⟩))
    | some value =>
      parseChars rest loop_start_position
        (program_ast_vec ++ [.Command ⟨value, program_ast_vec.length + 1⟩])
    | none => parseChars rest loop_start_position program_ast_vec

/-- `fn from_source_to_node_ast` in `src/parser.rs`: iterate over the
source's characters with an empty stack and an empty node sequence. -/
def from_source_to_node_ast (source_code : String) :
    Except ParserErrors (List BrainfuckNodeAST) :=
  parseChars source_code.data [] []

/-! ## I/O data model (`src/io.rs`) -/

/-- `struct ProgramValue(pub char)`. -/
structure ProgramValue where
  val : Char
deriving DecidableEq, Repr

/-- `enum InputError`. -/
inductive InputError where
  | Unknown
deriving DecidableEq, Repr

/-- `enum AsciiParseError`. -/
inductive AsciiParseError where
  | NotValidNumericRangeValue
  | NotValidAsciiCharacter
  | UnknownError
deriving DecidableEq, Repr

/-- Model of `core::num::IntErrorKind` as distinguished by
`TryFrom<&str> for ProgramValue` (`NegOverflow`/`Zero` cannot arise when
parsing a `u8`). -/
inductive IntErrorKind where
  | Empty
  | InvalidDigit
  | PosOverflow
deriving DecidableEq, Repr

/-- The digit loop of `core`'s `from_str_radix` at radix 10 on `u8`:
each character must be a decimal digit, and the accumulator is grown with
checked multiply-by-10 and checked add, failing with `PosOverflow` past
255. -/
def u8DigitsLoop : List Char → Nat → Except IntErrorKind Nat
  | [], acc => .ok acc
  | c :: rest, acc =>
    if c.isDigit then
      if acc * 10 ≤ 255 then
        if acc * 10 + (c.toNat - 48) ≤ 255 then
          u8DigitsLoop rest (acc * 10 + (c.toNat - 48))
        else .error .PosOverflow
      else .error .PosOverflow
    else .error .InvalidDigit

/-- Model of `"...".parse::<u8>()` (`from_str_radix`, radix 10, unsigned):
empty input fails with `Empty`; a lone `'+'` sign fails with
`InvalidDigit`; a leading `'+'` is otherwise skipped; `'-'` is not a
digit for an unsigned type, so a negative literal fails with
`InvalidDigit` inside the digit loop. -/
def parseU8 : List Char → Except IntErrorKind Nat
  | [] => .error .Empty
  | ['+'] => .error .InvalidDigit
  | '+' :: rest => u8DigitsLoop rest 0
  | l => u8DigitsLoop l 0

/-- `impl TryFrom<&str> for ProgramValue` in `src/io.rs`: parse as a `u8`
numeric code and accept it when `ascii::Char::from_u8` does (7-bit);
on `PosOverflow` report a range error; on `InvalidDigit` accept any
all-ASCII input by taking its first character (`byte_ascii_array[0]`),
otherwise report a non-ASCII error; any other parse failure is
`UnknownError`. -/
def ProgramValue.tryFromStr (value : String) : Except AsciiParseError ProgramValue :=
  match parseU8 value.data with
  | .ok ascii_code =>
    if ascii_code ≤ 127 then .ok ⟨Char.ofNat ascii_code⟩
    else .error .NotValidNumericRangeValue
  | .error .PosOverflow => .error .NotValidNumericRangeValue
  | .error .InvalidDigit =>
    if value.data.all (fun c => c.toNat ≤ 127) then
      match value.data with
      | c :: _rest => .ok ⟨c⟩
      -- Rust indexes `[0]` here, which would panic on an empty string;
      -- unreachable, since `InvalidDigit` requires at least one character.
      | [] => .error .UnknownError
    else .error .NotValidAsciiCharacter
  | .error _ => .error .UnknownError

/-- `impl Into<u8> for ProgramValue`: `self.0.as_ascii().unwrap().to_u8()`.
`as_ascii` is `Some` exactly on 7-bit code points; the `unwrap` panics
otherwise, modelled as `none`. -/
def ProgramValue.intoU8 (v : ProgramValue) : Option Nat :=
  if v.val.toNat ≤ 127 then some v.val.toNat else none

/-! ## Memory tape

`src/interpreter.rs` imports `BrainfuckMemory`, `MemoryTape` and
`MemoryErrors` from `crate::io`, and `src/main.rs` constructs
`BrainfuckMemory::new(memory_tape_size)`, but the memory module itself is
missing from `src/`; it is modelled here from §4.2/§3 of the spec. -/

/-- Modelled from the spec: the Memory Tape failure kinds — the
cell-arithmetic errors named by `src/interpreter.rs`
(`MemoryErrors::CellOverflow`, `MemoryErrors::CellUnderflow`) and the
out-of-range cursor move of §4.2. -/
inductive MemoryErrors where
  | CellOverflow
  | CellUnderflow
  | OutOfRangePosition
deriving DecidableEq, Repr

/-- Modelled from the spec (§3): the Memory Tape — a fixed-length
sequence of byte cells plus a cursor bounded within the tape. -/
structure BrainfuckMemory where
  cells : List Nat
  position : Nat
deriving DecidableEq, Repr

/-- Modelled from the spec (§4.3): a freshly constructed, zeroed tape of
the configured size (`BrainfuckMemory::new(memory_tape_size)` in
`src/main.rs`). -/
def BrainfuckMemory.new (size : Nat) : BrainfuckMemory :=
  ⟨List.replicate size 0, 0⟩

/-- Modelled from the spec (§4.2): `current_value()` — the cell at the
cursor, no failure mode. -/
def BrainfuckMemory.get_current_cell_value (m : BrainfuckMemory) : Nat :=
  m.cells.getD m.position 0

/-- Modelled from the spec (§4.2): `update` applies `f` to the current
cell; on success replaces the cell; on failure propagates the error
unchanged and leaves the cell untouched. -/
def BrainfuckMemory.update_memory_cell_value (m : BrainfuckMemory)
    (f : Nat → Except MemoryErrors Nat) : Except MemoryErrors BrainfuckMemory :=
  match f m.get_current_cell_value with
  | .ok v => .ok { m with cells := m.cells.set m.position v }
  | .error e => .error e

/-- Modelled from the spec (§4.2): `move(delta)` — fails, and does not
move, if the target cursor would be negative or ≥ tape length. -/
def BrainfuckMemory.move_pointer_position (m : BrainfuckMemory) (delta : Int) :
    Except MemoryErrors BrainfuckMemory :=
  let target : Int := (m.position : Int) + delta
  if 0 ≤ target ∧ target < (m.cells.length : Int) then
    .ok { m with position := target.toNat }
  else
    .error .OutOfRangePosition

/-! ## Execution engine (`src/interpreter.rs`) -/

/-- `enum InterpreterErrors`. -/
inductive InterpreterErrors where
  | EmptyAST
  | UnknownASTNode
  | OutOfRangeMemoryAccess
deriving DecidableEq, Repr

deriving instance DecidableEq for Except

/-- The interpreter's mutable data during `run`: the memory tape and the
`program_counter` diagnostic field of `struct Interpreter`, the local
`position` of `run`, the queue of values the Input collaborator will
return (one per `get_input()` call), and the values handed to the Output
collaborator's `print` so far. -/
structure InterpState where
  memory : BrainfuckMemory
  program_counter : Option BrainfuckOperations
  inputs : List (Except InputError ProgramValue)
  outputs : List ProgramValue
  position : Nat
deriving DecidableEq, Repr

/-- Outcome of dispatching one node: a successor state, a fatal
interpreter error (`return Err(..)` out of the loop), or a Rust panic. -/
inductive StepResult where
  | ok : InterpState → StepResult
  | fatal : InterpreterErrors → StepResult
  | panicked : StepResult
deriving DecidableEq, Repr

/-- One iteration of the dispatch `match` in `Interpreter::run`. Each arm
records the new `position` from the node's jump target; the
increment/decrement arms discard (`let _ =`) the checked-arithmetic
result; the move arms turn a tape failure into
`OutOfRangeMemoryAccess`; output of a non-7-bit byte and an input
failure only print a diagnostic and continue; a `Command` carrying
`LoopStart`, a `Loop` not carrying `LoopStart`, and `NoOp` match no arm
and fall to the defensive `UnknownASTNode` branch. -/
def stepNode (st : InterpState) (node : BrainfuckNodeAST) : StepResult :=
  match node with
  | .Command command =>
    match command.operation with
    | .IncrementByOneCurrentCell =>
      let memory' :=
        match st.memory.update_memory_cell_value
            (fun value =>
              if value + 1 ≤ 255 then .ok (value + 1) else .error .CellOverflow) with
        | .ok m => m
        | .error _ => st.memory
      .ok { st with position := command.next_position, memory := memory',
                    program_counter := some .IncrementByOneCurrentCell }
    | .DecrementByOneCurrentCell =>
      let memory' :=
        match st.memory.update_memory_cell_value
            (fun value =>
              if value = 0 then .error .CellUnderflow else .ok (value - 1)) with
        | .ok m => m
        | .error _ => st.memory
      .ok { st with position := command.next_position, memory := memory',
                    program_counter := some .DecrementByOneCurrentCell }
    | .MovePointerRight =>
      match st.memory.move_pointer_position 1 with
      | .ok m =>
        .ok { st with position := command.next_position, memory := m,
                      program_counter := some .MovePointerRight }
      | .error _ => .fatal .OutOfRangeMemoryAccess
    | .MovePointerLeft =>
      match st.memory.move_pointer_position (-1) with
      | .ok m =>
        .ok { st with position := command.next_position, memory := m,
                      program_counter := some .MovePointerLeft }
      | .error _ => .fatal .OutOfRangeMemoryAccess
    | .OutputCommand =>
      let outputs' :=
        if st.memory.get_current_cell_value ≤ 127 then
          st.outputs ++ [⟨Char.ofNat st.memory.get_current_cell_value⟩]
        else st.outputs
      .ok { st with position := command.next_position, outputs := outputs',
                    program_counter := some .OutputCommand }
    | .InputCommand =>
      match st.inputs with
      | .ok value :: rest =>
        match value.intoU8 with
        | some byte =>
          let memory' :=
            match st.memory.update_memory_cell_value (fun _value => .ok byte) with
            | .ok m => m
            | .error _ => st.memory
          .ok { st with position := command.next_position, memory := memory',
                        inputs := rest }
        | none => .panicked
      | .error _ :: rest =>
        .ok { st with position := command.next_position, inputs := rest }
      | [] =>
        .ok { st with position := command.next_position }
    | .LoopEnd =>
      .ok { st with position := command.next_position }
    | .LoopStart => .fatal .UnknownASTNode
  | .Loop loop_node =>
    if loop_node.operation = .LoopStart then
      if st.memory.get_current_cell_value > 0 then
        .ok { st with position := loop_node.next_position_as_true }
      else
        .ok { st with position := loop_node.next_position_as_false }
    else
      .fatal .UnknownASTNode
  | .NoOp => .fatal .UnknownASTNode

/-- Result of a whole run. `outOfFuel` stands for an execution still
going after the given number of dispatches — the loop in
`src/interpreter.rs` has no budget and may diverge. -/
inductive RunOutcome where
  | ok
  | err : InterpreterErrors → RunOutcome
  | panicked
  | outOfFuel
deriving DecidableEq, Repr

/-- The `while let Some(node) = ast.get(position)` loop of
`Interpreter::run`, with explicit fuel. -/
def runFromState (ast : List BrainfuckNodeAST) : Nat → InterpState → RunOutcome
  | fuel, st =>
    match ast[st.position]? with
    | none => .ok
    | some node =>
      match fuel with
      | 0 => .outOfFuel
      | fuel' + 1 =>
        match stepNode st node with
        | .ok st' => runFromState ast fuel' st'
        | .fatal e => .err e
        | .panicked => .panicked

/-- `Interpreter::run`: a missing (`None`) or zero-length program fails
with `EmptyAST`; otherwise execute from position 0. -/
def Interpreter.run (fuel : Nat) (ast_program : Option (List BrainfuckNodeAST))
    (st : InterpState) : RunOutcome :=
  match ast_program with
  | some ast =>
    if ast.length = 0 then .err .EmptyAST
    else runFromState ast fuel { st with position := 0 }
  | none => .err .EmptyAST

/-- `Interpreter::new` followed by `load_ast_program`: fresh
program-counter diagnostic, queued collaborator inputs, no output yet. -/
def initialState (memory : BrainfuckMemory)
    (inputs : List (Except InputError ProgramValue)) : InterpState :=
  { memory := memory, program_counter := none, inputs := inputs,
    outputs := [], position := 0 }

/-! ## Budget-guarded execution

`src/main.rs` passes `InterpreterConfig::new(limit_read_instructions)` to
`Interpreter::new`, and the integration tests expect an infinite loop to
fail with a budget-exhaustion message, but the budget-guarded revision of
the interpreter is missing from `src/` (`src/interpreter.rs` is an
earlier revision without it); it is modelled here from §4.3/§2.5 of the
spec. -/

/-- Outcome of a budget-guarded run; the spec surfaces budget exhaustion
"as a dedicated failure kind, not folded into the generic errors". -/
inductive BudgetOutcome where
  | ok
  | err : InterpreterErrors → BudgetOutcome
  | budgetExhausted
  | panicked
deriving DecidableEq, Repr

/-- Modelled from the spec: the Budget Guard's configuration
(`InterpreterConfig::new(limit_read_instructions)` in `src/main.rs`). -/
structure InterpreterConfig where
  limit_read_instructions : Nat
deriving DecidableEq, Repr

/-- Modelled from the spec (§4.3): "Before each dispatch, the Budget
Guard increments a step counter and compares it to the configured
ceiling; exceeding it fails the run" with the dedicated kind.
`remaining` is the ceiling minus the steps already dispatched; the
second component of the result counts the instructions this call
dispatches. -/
def runBudgetFromState (ast : List BrainfuckNodeAST) :
    Nat → InterpState → BudgetOutcome × Nat
  | remaining, st =>
    match ast[st.position]? with
    | none => (.ok, 0)
    | some node =>
      match remaining with
      | 0 => (.budgetExhausted, 0)
      | remaining' + 1 =>
        match stepNode st node with
        | .ok st' =>
          let result := runBudgetFromState ast remaining' st'
          (result.1, result.2 + 1)
        | .fatal e => (.err e, 1)
        | .panicked => (.panicked, 1)

/-- Modelled from the spec: the budget-guarded `run` (same `EmptyAST`
screening as `Interpreter::run`). -/
def Interpreter.runBudget (config : InterpreterConfig)
    (ast_program : Option (List BrainfuckNodeAST)) (st : InterpState) :
    BudgetOutcome × Nat :=
  match ast_program with
  | some ast =>
    if ast.length = 0 then (.err .EmptyAST, 0)
    else runBudgetFromState ast config.limit_read_instructions { st with position := 0 }
  | none => (.err .EmptyAST, 0)

/-! ## Derived predicates used by the statements -/

/-- Number of source characters that lex to `LoopStart` (`[`). -/
def countOpens (l : List Char) : Nat :=
  l.countP (fun c => decide (map_char_to_brainfuck_operation c = some .LoopStart))

/-- Number of source characters that lex to `LoopEnd` (`]`). -/
def countCloses (l : List Char) : Nat :=
  l.countP (fun c => decide (map_char_to_brainfuck_operation c = some .LoopEnd))

/-- Shape discipline of the parsed node at index `i`, with the
matching-pair pointers both ways: a `Loop` carries `loop-start`, its
taken target is `i + 1`, and its false target is one past a `loop-end`
`Command` that jumps back to `i`; a `loop-end` `Command` jumps back to a
`Loop` whose false target is one past `i`; every other `Command` falls
through to `i + 1` and is not a leftover `loop-start` placeholder;
`NoOp` never occurs. -/
def nodeOkStrong (ast : List BrainfuckNodeAST) (i : Nat) : Prop :=
  match ast[i]? with
  | some (.Loop l) =>
      l.operation = .LoopStart ∧ l.next_position_as_true = i + 1 ∧
        ∃ k, l.next_position_as_false = k + 1 ∧
          ast[k]? = some (.Command ⟨.LoopEnd, i⟩)
  | some (.Command c) =>
      (c.operation = .LoopEnd →
        ast[c.next_position]? = some (.Loop ⟨.LoopStart, c.next_position + 1, i + 1⟩))
      ∧ (c.operation ≠ .LoopEnd → c.operation ≠ .LoopStart ∧ c.next_position = i + 1)
  | some .NoOp => False
  | none => True

/-- The jump-target invariant as claimed for parser output: every `Loop`
node's taken target is its own index + 1 and its false target is the
index one past its matching loop-end (the loop-end `Command` that jumps
back to it); every loop-end `Command` jumps to its matching loop-start
(the `Loop` whose false target is one past the loop-end); every other
`Command` falls through to its own index + 1. -/
def astMatchedWellFormed (ast : List BrainfuckNodeAST) : Prop :=
  ∀ (i : Nat) (node : BrainfuckNodeAST), ast[i]? = some node →
    match node with
    | .Loop l =>
        l.operation = .LoopStart ∧ l.next_position_as_true = i + 1 ∧
          ∃ k, l.next_position_as_false = k + 1 ∧
            ast[k]? = some (.Command ⟨.LoopEnd, i⟩)
    | .Command c =>
        (c.operation = .LoopEnd →
          ast[c.next_position]? = some (.Loop ⟨.LoopStart, c.next_position + 1, i + 1⟩))
        ∧ (c.operation ≠ .LoopEnd → c.next_position = i + 1)
    | .NoOp => True

/-- A node the dispatch `match` of `Interpreter::run` accepts without
falling to the defensive `UnknownASTNode` branch. -/
def dispatchable (node : BrainfuckNodeAST) : Prop :=
  match node with
  | .Command c => c.operation ≠ .LoopStart
  | .Loop l => l.operation = .LoopStart
  | .NoOp => False

/-- The parser's in-flight invariant: the pending loop-start stack has no
duplicates, every pending index holds its placeholder
`Command(loop-start, index + 1)` node, and every other index already
satisfies the final shape discipline. -/
def parseInv (stack : List Nat) (ast : List BrainfuckNodeAST) : Prop :=
  stack.Nodup
  ∧ (∀ j ∈ stack, ast[j]? = some (.Command ⟨.LoopStart, j + 1⟩))
  ∧ (∀ i, i ∉ stack → nodeOkStrong ast i)

end Braincrub

namespace Braincrub

/-- Sanity check of the parser on the repository's own unit-test input
`b[de+a-]` (invalid characters filtered, loop resolved). -/
theorem parse_filters_example :
    from_source_to_node_ast "b[de+a-]" =
      .ok [.Loop ⟨.LoopStart, 1, 4⟩,
           .Command ⟨.IncrementByOneCurrentCell, 2⟩,
           .Command ⟨.DecrementByOneCurrentCell, 3⟩,
           .Command ⟨.LoopEnd, 0⟩] := rfl

end Braincrub

namespace Braincrub

/-- C3: parsing `++[+>]++` succeeds and yields exactly the claimed
8-node sequence: straight-line commands falling through to index + 1,
the loop resolved to (true = 3, false = 6), and its loop-end jumping
back to the loop's index 2. -/
theorem c3_concrete_parse :
    from_source_to_node_ast "++[+>]++" =
      .ok [.Command ⟨.IncrementByOneCurrentCell, 1⟩,
           .Command ⟨.IncrementByOneCurrentCell, 2⟩,
           .Loop ⟨.LoopStart, 3, 6⟩,
           .Command ⟨.IncrementByOneCurrentCell, 4⟩,
           .Command ⟨.MovePointerRight, 5⟩,
           .Command ⟨.LoopEnd, 2⟩,
           .Command ⟨.IncrementByOneCurrentCell, 7⟩,
           .Command ⟨.IncrementByOneCurrentCell, 8⟩] := rfl

/-- Characters that do not lex to an operation are dropped by the scan
without affecting the state threaded through it. -/
theorem parseChars_filter (l : List Char) :
    ∀ stack ast,
      parseChars (l.filter (fun c => (map_char_to_brainfuck_operation c).isSome)) stack ast
        = parseChars l stack ast := by
  induction l with
  | nil => intro stack ast; rfl
  | cons c rest ih =>
    intro stack ast
    cases hop : map_char_to_brainfuck_operation c with
    | none =>
      simp only [List.filter_cons, hop, Option.isSome_none, Bool.false_eq_true, if_false]
      rw [ih]
      simp only [parseChars, hop]
    | some op =>
      have hs : (map_char_to_brainfuck_operation c).isSome = true := by rw [hop]; rfl
      simp only [List.filter_cons, hs, if_true]
      cases op <;> cases stack <;> simp only [parseChars, hop, ih]

end Braincrub

namespace Braincrub

/-- C8: non-instruction characters produce no nodes and no error (the
parse of any source equals the parse of its instruction-only
filtering); a source of only non-instruction characters — the empty
source included — parses to the empty node sequence; and emptiness is
rejected by the Execution Engine, not the parser: running with no
program loaded, or with a zero-length program, fails with `EmptyAST`. -/
theorem c8_noise_and_emptiness :
    (∀ s : String,
      from_source_to_node_ast s
        = from_source_to_node_ast
            ⟨s.data.filter (fun c => (map_char_to_brainfuck_operation c).isSome)⟩)
    ∧ (∀ s : String, (∀ c ∈ s.data, map_char_to_brainfuck_operation c = none) →
        from_source_to_node_ast s = .ok [])
    ∧ (∀ (fuel : Nat) (st : InterpState),
        Interpreter.run fuel none st = .err .EmptyAST)
    ∧ (∀ (fuel : Nat) (st : InterpState),
        Interpreter.run fuel (some []) st = .err .EmptyAST) := by
  refine ⟨fun s => ?_, fun s h => ?_, fun fuel st => rfl, fun fuel st => rfl⟩
  · exact (parseChars_filter s.data [] []).symm
  · have hf : s.data.filter (fun c => (map_char_to_brainfuck_operation c).isSome) = [] := by
      rw [List.filter_eq_nil_iff]
      intro c hc
      simp [h c hc]
    have := parseChars_filter s.data [] []
    rw [hf] at this
    exact this.symm

/-- Witness for C8 at concrete inputs: a source of only noise
characters parses to the empty sequence, and the engine rejects the
missing and the empty program. -/
theorem c8_witness :
    from_source_to_node_ast "hello world!" = .ok []
    ∧ Interpreter.run 7 none (initialState (BrainfuckMemory.new 3) []) = .err .EmptyAST
    ∧ Interpreter.run 7 (some []) (initialState (BrainfuckMemory.new 3) [])
        = .err .EmptyAST := by
  refine ⟨c8_noise_and_emptiness.2.1 "hello world!" ?_, c8_noise_and_emptiness.2.2.1 7 _,
    c8_noise_and_emptiness.2.2.2 7 _⟩
  decide

end Braincrub

namespace Braincrub

/-- C6: dispatching increment-cell with the current cell at 255, or
decrement-cell with the current cell at 0, does not stop the run: the
checked-arithmetic error is discarded, the memory (hence the cell) is
left unchanged, and execution continues at the instruction's fallthrough
target. -/
theorem c6_arithmetic_edges_nonfatal (ast : List BrainfuckNodeAST)
    (st : InterpState) (next fuel : Nat) :
    (ast[st.position]? = some (.Command ⟨.IncrementByOneCurrentCell, next⟩) →
      st.memory.get_current_cell_value = 255 →
      runFromState ast (fuel + 1) st
        = runFromState ast fuel
            { st with position := next,
                      program_counter := some .IncrementByOneCurrentCell })
    ∧ (ast[st.position]? = some (.Command ⟨.DecrementByOneCurrentCell, next⟩) →
      st.memory.get_current_cell_value = 0 →
      runFromState ast (fuel + 1) st
        = runFromState ast fuel
            { st with position := next,
                      program_counter := some .DecrementByOneCurrentCell }) := by
  constructor
  · intro hnode hcell
    conv_lhs => rw [runFromState.eq_def]
    simp only [hnode]
    simp [stepNode, BrainfuckMemory.update_memory_cell_value, hcell]
  · intro hnode hcell
    conv_lhs => rw [runFromState.eq_def]
    simp only [hnode]
    simp [stepNode, BrainfuckMemory.update_memory_cell_value, hcell]

/-- Witness for C6: a two-instruction program whose first increment hits
a cell already at 255 continues into its second instruction and
terminates successfully with the cell still at 255. -/
theorem c6_witness :
    runFromState
      [.Command ⟨.IncrementByOneCurrentCell, 1⟩,
       .Command ⟨.DecrementByOneCurrentCell, 2⟩]
      2 { memory := ⟨[255], 0⟩, program_counter := none, inputs := [],
          outputs := [], position := 0 }
      = runFromState
          [.Command ⟨.IncrementByOneCurrentCell, 1⟩,
           .Command ⟨.DecrementByOneCurrentCell, 2⟩]
          1 { memory := ⟨[255], 0⟩, program_counter := some .IncrementByOneCurrentCell,
              inputs := [], outputs := [], position := 1 } :=
  (c6_arithmetic_edges_nonfatal _ _ 1 1).1 rfl rfl

end Braincrub

namespace Braincrub

/-- C7: dispatching move-right with the cursor at the last valid tape
position, or move-left with the cursor at position 0, makes the tape
move fail without moving the cursor, and the engine fails the whole run
with the fatal `OutOfRangeMemoryAccess`. -/
theorem c7_move_edges_fatal (ast : List BrainfuckNodeAST)
    (st : InterpState) (next fuel : Nat) :
    (ast[st.position]? = some (.Command ⟨.MovePointerRight, next⟩) →
      st.memory.position + 1 = st.memory.cells.length →
      st.memory.move_pointer_position 1 = .error .OutOfRangePosition
      ∧ runFromState ast (fuel + 1) st = .err .OutOfRangeMemoryAccess)
    ∧ (ast[st.position]? = some (.Command ⟨.MovePointerLeft, next⟩) →
      st.memory.position = 0 →
      st.memory.move_pointer_position (-1) = .error .OutOfRangePosition
      ∧ runFromState ast (fuel + 1) st = .err .OutOfRangeMemoryAccess) := by
  constructor
  · intro hnode hlast
    have hmove : st.memory.move_pointer_position 1 = .error .OutOfRangePosition := by
      rw [BrainfuckMemory.move_pointer_position]
      rw [if_neg]
      intro hc
      omega
    refine ⟨hmove, ?_⟩
    conv_lhs => rw [runFromState.eq_def]
    simp only [hnode]
    simp [stepNode, hmove]
  · intro hnode hzero
    have hmove : st.memory.move_pointer_position (-1) = .error .OutOfRangePosition := by
      rw [BrainfuckMemory.move_pointer_position]
      rw [if_neg]
      intro hc
      omega
    refine ⟨hmove, ?_⟩
    conv_lhs => rw [runFromState.eq_def]
    simp only [hnode]
    simp [stepNode, hmove]

/-- Witness for C7: on a one-cell tape, a move-right from position 0
(the last valid position) aborts the run with
`OutOfRangeMemoryAccess`. -/
theorem c7_witness :
    (⟨[7], 0⟩ : BrainfuckMemory).move_pointer_position 1 = .error .OutOfRangePosition
    ∧ runFromState [.Command ⟨.MovePointerRight, 1⟩] 1
        { memory := ⟨[7], 0⟩, program_counter := none, inputs := [],
          outputs := [], position := 0 }
        = .err .OutOfRangeMemoryAccess :=
  (c7_move_edges_fatal [.Command ⟨.MovePointerRight, 1⟩]
    { memory := ⟨[7], 0⟩, program_counter := none, inputs := [],
      outputs := [], position := 0 } 1 0).1 rfl rfl

end Braincrub

namespace Braincrub

/-- When the Budget Guard stops a run, it stops it only at the ceiling:
a `budgetExhausted` outcome means exactly `remaining` further
instructions were dispatched before a node was still left to execute. -/
theorem runBudgetFromState_exhausted_steps (ast : List BrainfuckNodeAST) :
    ∀ (remaining : Nat) (st : InterpState),
      (runBudgetFromState ast remaining st).1 = .budgetExhausted →
      (runBudgetFromState ast remaining st).2 = remaining := by
  intro remaining
  induction remaining with
  | zero =>
    intro st h
    rw [runBudgetFromState.eq_def] at h ⊢
    cases hnode : ast[st.position]? with
    | none => simp [hnode] at h
    | some node => simp [hnode]
  | succ r ih =>
    intro st h
    rw [runBudgetFromState.eq_def] at h ⊢
    cases hnode : ast[st.position]? with
    | none => simp [hnode] at h
    | some node =>
      simp only [hnode] at h ⊢
      cases hstep : stepNode st node with
      | ok st' =>
        simp only [hstep] at h ⊢
        exact congrArg (· + 1) (ih st' h)
      | fatal e => simp [hstep] at h
      | panicked => simp [hstep] at h

end Braincrub

namespace Braincrub

/-- C1: the Budget Guard counts one step per dispatched node against the
configured ceiling, and exceeding the ceiling fails the run with the
dedicated budget-exhausted kind: in general a budget-exhausted run has
dispatched exactly its ceiling's worth of instructions with a node still
pending, and in particular the parse of `+[]` run with
instruction-limit 10 ends in `budgetExhausted` after exactly 10
dispatched instructions. -/
theorem c1_budget_guard :
    (∀ (ast : List BrainfuckNodeAST) (remaining : Nat) (st : InterpState),
      (runBudgetFromState ast remaining st).1 = .budgetExhausted →
      (runBudgetFromState ast remaining st).2 = remaining)
    ∧ from_source_to_node_ast "+[]"
        = .ok [.Command ⟨.IncrementByOneCurrentCell, 1⟩,
               .Loop ⟨.LoopStart, 2, 3⟩,
               .Command ⟨.LoopEnd, 1⟩]
    ∧ Interpreter.runBudget ⟨10⟩
        (some [.Command ⟨.IncrementByOneCurrentCell, 1⟩,
               .Loop ⟨.LoopStart, 2, 3⟩,
               .Command ⟨.LoopEnd, 1⟩])
        (initialState (BrainfuckMemory.new 5) [])
        = (.budgetExhausted, 10) :=
  ⟨runBudgetFromState_exhausted_steps, rfl, rfl⟩

/-- Witness for C1: the general budget-exhaustion accounting applied to
the concrete `+[]` run — its outcome is `budgetExhausted` and its
dispatched-step count is the full ceiling of 10. -/
theorem c1_witness :
    (runBudgetFromState
      [.Command ⟨.IncrementByOneCurrentCell, 1⟩,
       .Loop ⟨.LoopStart, 2, 3⟩,
       .Command ⟨.LoopEnd, 1⟩] 10
      (initialState (BrainfuckMemory.new 5) [])).2 = 10 :=
  c1_budget_guard.1 _ 10 _ rfl

end Braincrub

namespace Braincrub

/-- `parseU8` never reports `InvalidDigit` on the empty input (it
reports `Empty`), so the first-character indexing in the `InvalidDigit`
branch of `TryFrom` cannot panic. -/
theorem parseU8_invalidDigit_ne_nil (l : List Char)
    (h : parseU8 l = .error .InvalidDigit) : l ≠ [] := by
  intro hl
  subst hl
  simp [parseU8] at h

/-- A 7-bit code round-trips through `Char.ofNat`. -/
theorem char_ofNat_toNat (n : Nat) (h : n ≤ 127) : (Char.ofNat n).toNat = n := by
  have hv : n.isValidChar := Or.inl (by omega)
  simp [Char.ofNat, hv, Char.toNat, Char.ofNatAux, UInt32.toNat, BitVec.toNat_ofNatLt]

/-- Every `ProgramValue` a successful prompt parse produces wraps a
7-bit character: the numeric branch is guarded by the 127 check and the
character branch by the all-ASCII check. -/
theorem tryFromStr_ok_ascii (s : String) (v : ProgramValue)
    (hok : ProgramValue.tryFromStr s = .ok v) : v.val.toNat ≤ 127 := by
  unfold ProgramValue.tryFromStr at hok
  cases hp : parseU8 s.data with
  | ok n =>
    simp only [hp] at hok
    by_cases hn : n ≤ 127
    · rw [if_pos hn] at hok
      injection hok with h
      subst h
      rw [char_ofNat_toNat n hn]
      exact hn
    · rw [if_neg hn] at hok
      cases hok
  | error e =>
    cases e with
    | Empty => simp [hp] at hok
    | PosOverflow => simp [hp] at hok
    | InvalidDigit =>
      simp only [hp] at hok
      cases hb : s.data.all (fun c => c.toNat ≤ 127) with
      | false => simp [hb] at hok
      | true =>
        simp only [hb, if_true] at hok
        cases hd : s.data with
        | nil => simp [hd] at hok
        | cons c rest =>
          rw [hd] at hok
          injection hok with h
          subst h
          rw [hd] at hb
          simp only [List.all_cons, Bool.and_eq_true, decide_eq_true_eq] at hb
          exact hb.1

end Braincrub

namespace Braincrub

/-- C9 (counterexample to the claim as stated): the two-character ASCII
string `"ab"` is neither a decimal code in [0,127] nor a single
character, yet the prompt parse succeeds on it (with its first
character); and the empty string fails with the catch-all
`UnknownError`, a third failure kind beyond the claimed two. -/
theorem c9_counterexample :
    ProgramValue.tryFromStr "ab" = .ok ⟨'a'⟩
    ∧ ProgramValue.tryFromStr "" = .error .UnknownError := ⟨rfl, rfl⟩

/-- C9 (amended): parsing a prompt string succeeds exactly when it
parses as a decimal `u8` code in [0,127], or when the `u8` parse fails
with invalid-digit and the string is all 7-bit ASCII — in which case its
FIRST character is returned, so any non-numeric ASCII string succeeds,
not only single characters. Failures split three ways: numeric codes
above 127 and digit-overflows fail numeric-range-invalid, non-ASCII
non-numeric strings fail non-ASCII-character-invalid, and the empty
string fails with the catch-all unknown-error kind. -/
theorem c9_prompt_parse_amended :
    (∀ s : String, (ProgramValue.tryFromStr s).isOk = true ↔
        ((∃ n, parseU8 s.data = .ok n ∧ n ≤ 127)
          ∨ (parseU8 s.data = .error .InvalidDigit
              ∧ s.data.all (fun c => c.toNat ≤ 127) = true)))
    ∧ (∀ (s : String) (c : Char) (rest : List Char), s.data = c :: rest →
        parseU8 s.data = .error .InvalidDigit →
        s.data.all (fun c => c.toNat ≤ 127) = true →
        ProgramValue.tryFromStr s = .ok ⟨c⟩)
    ∧ (∀ (s : String) (n : Nat), parseU8 s.data = .ok n → 127 < n →
        ProgramValue.tryFromStr s = .error .NotValidNumericRangeValue)
    ∧ (∀ s : String, parseU8 s.data = .error .PosOverflow →
        ProgramValue.tryFromStr s = .error .NotValidNumericRangeValue)
    ∧ (∀ s : String, parseU8 s.data = .error .InvalidDigit →
        s.data.all (fun c => c.toNat ≤ 127) = false →
        ProgramValue.tryFromStr s = .error .NotValidAsciiCharacter)
    ∧ (∀ s : String, parseU8 s.data = .error .Empty →
        ProgramValue.tryFromStr s = .error .UnknownError) := by
  refine ⟨fun s => ⟨fun hok => ?_, fun hcase => ?_⟩,
    fun s c rest hd hp hall => ?_, fun s n hp hn => ?_,
    fun s hp => ?_, fun s hp hall => ?_, fun s hp => ?_⟩
  · unfold ProgramValue.tryFromStr at hok
    cases hp : parseU8 s.data with
    | ok n =>
      simp only [hp] at hok
      by_cases hn : n ≤ 127
      · exact Or.inl ⟨n, rfl, hn⟩
      · rw [if_neg hn] at hok; simp [Except.isOk, Except.toBool] at hok
    | error e =>
      cases e with
      | Empty => simp [hp, Except.isOk, Except.toBool] at hok
      | PosOverflow => simp [hp, Except.isOk, Except.toBool] at hok
      | InvalidDigit =>
        cases hb : s.data.all (fun c => c.toNat ≤ 127) with
        | true => exact Or.inr ⟨rfl, rfl⟩
        | false =>
          have hball : ¬ ∀ x ∈ s.data, x.toNat ≤ 127 := by simpa using hb
          simp [hp, Except.isOk, Except.toBool, hball] at hok
  · rcases hcase with ⟨n, hp, hn⟩ | ⟨hp, hall⟩
    · simp [ProgramValue.tryFromStr, hp, hn, Except.isOk, Except.toBool]
    · have hne := parseU8_invalidDigit_ne_nil s.data hp
      cases hd : s.data with
      | nil => exact absurd hd hne
      | cons c rest =>
        rw [hd] at hp hall
        simp [ProgramValue.tryFromStr, hd, hp, hall, Except.isOk, Except.toBool]
  · rw [hd] at hp hall
    simp [ProgramValue.tryFromStr, hd, hp, hall]
  · have hn' : ¬ n ≤ 127 := by omega
    simp [ProgramValue.tryFromStr, hp, hn']
  · simp [ProgramValue.tryFromStr, hp]
  · simp [ProgramValue.tryFromStr, hp, hall]
  · simp [ProgramValue.tryFromStr, hp]

/-- Witness for the amended C9 at concrete prompts: a numeric code, a
multi-character ASCII string (first character returned), an in-range-u8
but non-ASCII code, an overflowing code, a non-ASCII character, and the
empty string. -/
theorem c9_witness :
    (ProgramValue.tryFromStr "A").isOk = true
    ∧ ProgramValue.tryFromStr "ZZ" = .ok ⟨'Z'⟩
    ∧ ProgramValue.tryFromStr "200" = .error .NotValidNumericRangeValue
    ∧ ProgramValue.tryFromStr "999" = .error .NotValidNumericRangeValue
    ∧ ProgramValue.tryFromStr "Ñ" = .error .NotValidAsciiCharacter
    ∧ ProgramValue.tryFromStr "" = .error .UnknownError :=
  ⟨(c9_prompt_parse_amended.1 "A").mpr (Or.inr ⟨rfl, by decide⟩),
   c9_prompt_parse_amended.2.1 "ZZ" 'Z' ['Z'] rfl rfl (by decide),
   c9_prompt_parse_amended.2.2.1 "200" 200 rfl (by decide),
   c9_prompt_parse_amended.2.2.2.1 "999" rfl,
   c9_prompt_parse_amended.2.2.2.2.1 "Ñ" rfl (by decide),
   c9_prompt_parse_amended.2.2.2.2.2 "" rfl⟩

end Braincrub

namespace Braincrub

/-- C10: the byte conversion of a `ProgramValue` unwraps an ASCII check,
so it panics (`none`) exactly when the wrapped char is not 7-bit; every
value produced by a successful prompt parse wraps a 7-bit char, so under
that precondition the conversion is panic-free and yields its code in
[0,127]; yet the interpreter's input dispatch does panic when the Input
collaborator hands back a `ProgramValue` holding a non-ASCII char. -/
theorem c10_conversion_panics (v : ProgramValue) (s : String) :
    (127 < v.val.toNat → v.intoU8 = none)
    ∧ (ProgramValue.tryFromStr s = .ok v →
        v.intoU8 = some v.val.toNat ∧ v.val.toNat ≤ 127)
    ∧ runFromState [.Command ⟨.InputCommand, 1⟩] 1
        (initialState (BrainfuckMemory.new 1) [.ok ⟨'Ñ'⟩]) = .panicked := by
  refine ⟨fun hv => ?_, fun hok => ?_, rfl⟩
  · unfold ProgramValue.intoU8
    rw [if_neg (by omega)]
  · have hascii := tryFromStr_ok_ascii s v hok
    refine ⟨?_, hascii⟩
    unfold ProgramValue.intoU8
    rw [if_pos hascii]

/-- Witness for C10: the conversion panics on `'Ñ'` (code 209) and is
panic-free with code 65 on the value parsed from the prompt `"A"`. -/
theorem c10_witness :
    ProgramValue.intoU8 ⟨'Ñ'⟩ = none
    ∧ ProgramValue.intoU8 ⟨'A'⟩ = some ('A').toNat ∧ ('A').toNat ≤ 127 :=
  ⟨(c10_conversion_panics ⟨'Ñ'⟩ "").1 (by decide),
   (c10_conversion_panics ⟨'A'⟩ "A").2.1 rfl⟩

end Braincrub

namespace Braincrub

/-- If no prefix of the remaining input closes more loops than the
pending stack plus its own opens allow, and opens outnumber closes
overall, the scan finishes with a non-empty stack and reports
`MissingTerminantedLoop`. -/
theorem parseChars_unmatched_open (l : List Char) :
    ∀ (stack : List Nat) (ast : List BrainfuckNodeAST),
      (∀ n, n ≤ l.length →
        countCloses (l.take n) ≤ stack.length + countOpens (l.take n)) →
      countCloses l < stack.length + countOpens l →
      parseChars l stack ast = .error .MissingTerminantedLoop := by
  induction l with
  | nil =>
    intro stack ast _ hlt
    have hpos : 0 < stack.length := by
      simpa [countOpens, countCloses] using hlt
    simp [parseChars, hpos]
  | cons c rest ih =>
    intro stack ast hpre hlt
    cases hop : map_char_to_brainfuck_operation c with
    | none =>
      simp only [parseChars, hop]
      apply ih
      · intro n hn
        have h := hpre (n + 1) (by simpa using Nat.succ_le_succ hn)
        simpa [countOpens, countCloses, List.countP_cons, hop] using h
      · have h := hlt
        simpa [countOpens, countCloses, List.countP_cons, hop] using h
    | some op =>
      cases op
      case LoopStart =>
        simp only [parseChars, hop]
        apply ih
        · intro n hn
          have h := hpre (n + 1) (by simpa using Nat.succ_le_succ hn)
          simp [countOpens, countCloses, List.countP_cons, hop] at h ⊢
          omega
        · have h := hlt
          simp [countOpens, countCloses, List.countP_cons, hop] at h ⊢
          omega
      case LoopEnd =>
        have hne : 1 ≤ stack.length := by
          have h := hpre 1 (by simp)
          simpa [countOpens, countCloses, List.countP_cons, hop, List.take_succ_cons] using h
        cases stack with
        | nil => simp at hne
        | cons j stack_rest =>
          simp only [parseChars, hop]
          apply ih
          · intro n hn
            have h := hpre (n + 1) (by simpa using Nat.succ_le_succ hn)
            simp [countOpens, countCloses, List.countP_cons, hop] at h ⊢
            omega
          · have h := hlt
            simp [countOpens, countCloses, List.countP_cons, hop] at h ⊢
            omega
      all_goals
        simp only [parseChars, hop]
        apply ih
        · intro n hn
          have h := hpre (n + 1) (by simpa using Nat.succ_le_succ hn)
          simp [countOpens, countCloses, List.countP_cons, hop] at h ⊢
          omega
        · have h := hlt
          simp [countOpens, countCloses, List.countP_cons, hop] at h ⊢
          omega

end Braincrub

namespace Braincrub

/-- If every prefix of `pre` closes no more loops than the pending stack
plus its own opens allow, and `pre` closes exactly that many, then the
`]` right after `pre` finds an empty stack and the scan stops at once
with `MissingOpenLoop` — whatever follows that `]` is never looked
at. -/
theorem parseChars_unmatched_close (pre : List Char) :
    ∀ (rest : List Char) (stack : List Nat) (ast : List BrainfuckNodeAST),
      (∀ n, n ≤ pre.length →
        countCloses (pre.take n) ≤ stack.length + countOpens (pre.take n)) →
      stack.length + countOpens pre = countCloses pre →
      parseChars (pre ++ ']' :: rest) stack ast = .error .MissingOpenLoop := by
  induction pre with
  | nil =>
    intro rest stack ast _ heq
    have hs : stack.length = 0 := by
      simpa [countOpens, countCloses] using heq
    cases stack with
    | nil => rfl
    | cons j stack_rest => simp at hs
  | cons c pre' ih =>
    intro rest stack ast hpre heq
    cases hop : map_char_to_brainfuck_operation c with
    | none =>
      simp only [List.cons_append, parseChars, hop]
      apply ih
      · intro n hn
        have h := hpre (n + 1) (by simpa using Nat.succ_le_succ hn)
        simpa [countOpens, countCloses, List.countP_cons, hop] using h
      · have h := heq
        simp [countOpens, countCloses, List.countP_cons, hop] at h ⊢
        omega
    | some op =>
      cases op
      case LoopStart =>
        simp only [List.cons_append, parseChars, hop]
        apply ih
        · intro n hn
          have h := hpre (n + 1) (by simpa using Nat.succ_le_succ hn)
          simp [countOpens, countCloses, List.countP_cons, hop] at h ⊢
          omega
        · have h := heq
          simp [countOpens, countCloses, List.countP_cons, hop] at h ⊢
          omega
      case LoopEnd =>
        have hne : 1 ≤ stack.length := by
          have h := hpre 1 (by simp)
          simpa [countOpens, countCloses, List.countP_cons, hop, List.take_succ_cons] using h
        cases stack with
        | nil => simp at hne
        | cons j stack_rest =>
          simp only [List.cons_append, parseChars, hop]
          apply ih
          · intro n hn
            have h := hpre (n + 1) (by simpa using Nat.succ_le_succ hn)
            simp [countOpens, countCloses, List.countP_cons, hop] at h ⊢
            omega
          · have h := heq
            simp [countOpens, countCloses, List.countP_cons, hop] at h ⊢
            omega
      all_goals
        simp only [List.cons_append, parseChars, hop]
        apply ih
        · intro n hn
          have h := hpre (n + 1) (by simpa using Nat.succ_le_succ hn)
          simp [countOpens, countCloses, List.countP_cons, hop] at h ⊢
          omega
        · have h := heq
          simp [countOpens, countCloses, List.countP_cons, hop] at h ⊢
          omega

end Braincrub

namespace Braincrub

/-- C4: a source whose prefixes never close more loops than they open
but which has one more `[` than `]` fails with `MissingTerminatedLoop`
(only known after the whole scan); and a source reaching a `]` with all
earlier opens already matched fails with `MissingOpenLoop` immediately
at that `]`, for every possible continuation of the source after it. -/
theorem c4_bracket_errors :
    (∀ s : String,
      (∀ n, n ≤ s.data.length →
        countCloses (s.data.take n) ≤ countOpens (s.data.take n)) →
      countOpens s.data = countCloses s.data + 1 →
      from_source_to_node_ast s = .error .MissingTerminantedLoop)
    ∧ (∀ (pre rest : List Char),
      (∀ n, n ≤ pre.length →
        countCloses (pre.take n) ≤ countOpens (pre.take n)) →
      countOpens pre = countCloses pre →
      from_source_to_node_ast ⟨pre ++ ']' :: rest⟩ = .error .MissingOpenLoop) := by
  constructor
  · intro s hpre hcount
    unfold from_source_to_node_ast
    apply parseChars_unmatched_open
    · simpa using hpre
    · simp only [List.length_nil, Nat.zero_add]
      omega
  · intro pre rest hpre heq
    unfold from_source_to_node_ast
    exact parseChars_unmatched_close pre rest [] []
      (by simpa using hpre) (by simpa using heq)

/-- Witness for C4: `+[` has one unmatched `[` and fails with
`MissingTerminantedLoop`; `+[]]+` hits its second `]` with every open
matched and fails with `MissingOpenLoop` (the trailing `+` is never
scanned). -/
theorem c4_witness :
    from_source_to_node_ast "+[" = .error .MissingTerminantedLoop
    ∧ from_source_to_node_ast ⟨['+', '[', ']'] ++ ']' :: ['+']⟩
        = .error .MissingOpenLoop :=
  ⟨c4_bracket_errors.1 "+[" (by decide) (by decide),
   c4_bracket_errors.2 ['+', '[', ']'] ['+'] (by decide) (by decide)⟩

end Braincrub

namespace Braincrub

/-- A successful indexed lookup survives appending on the right. -/
theorem getElem?_append_some {α : Type} (ast l2 : List α) (k : Nat) (v : α)
    (h : ast[k]? = some v) : (ast ++ l2)[k]? = some v := by
  have hk : k < ast.length := by
    by_contra hk
    rw [List.getElem?_eq_none (by omega)] at h
    cases h
  rw [List.getElem?_append_left hk]
  exact h

/-- The shape discipline at an existing index survives appending a node
on the right. -/
theorem nodeOkStrong_append (ast : List BrainfuckNodeAST) (x : BrainfuckNodeAST)
    (i : Nat) (hilen : i < ast.length) (h : nodeOkStrong ast i) :
    nodeOkStrong (ast ++ [x]) i := by
  unfold nodeOkStrong at h ⊢
  rw [List.getElem?_append_left hilen]
  cases hcase : ast[i]? with
  | none => trivial
  | some node =>
    rw [hcase] at h
    cases node with
    | Loop linfo =>
      obtain ⟨h1, h2, k, h3, h4⟩ := h
      exact ⟨h1, h2, k, h3, getElem?_append_some _ _ _ _ h4⟩
    | Command cinfo =>
      obtain ⟨hend, hother⟩ := h
      exact ⟨fun hLE => getElem?_append_some _ _ _ _ (hend hLE), hother⟩
    | NoOp => exact h

end Braincrub

namespace Braincrub

/-- Appending a straight-line command node (neither loop-start nor
loop-end) with fallthrough target `ast.length + 1` preserves the
parser's invariant. -/
theorem parseInv_append_command (stack : List Nat) (ast : List BrainfuckNodeAST)
    (op : BrainfuckOperations) (hop1 : op ≠ .LoopStart) (hop2 : op ≠ .LoopEnd)
    (hinv : parseInv stack ast) :
    parseInv stack (ast ++ [.Command ⟨op, ast.length + 1⟩]) := by
  obtain ⟨hnd, hph, hok⟩ := hinv
  refine ⟨hnd, fun j hj => getElem?_append_some _ _ _ _ (hph j hj), fun i hi => ?_⟩
  by_cases hilen : i < ast.length
  · exact nodeOkStrong_append ast _ i hilen (hok i hi)
  · by_cases hieq : i = ast.length
    · subst hieq
      unfold nodeOkStrong
      rw [List.getElem?_concat_length]
      exact ⟨fun h => absurd h hop2, fun _ => ⟨hop1, rfl⟩⟩
    · unfold nodeOkStrong
      rw [List.getElem?_eq_none (by simp; omega)]
      trivial

/-- Pushing a fresh loop-start placeholder preserves the parser's
invariant: the new index is fresh, carries its placeholder node, and
every older index is untouched. -/
theorem parseInv_push (stack : List Nat) (ast : List BrainfuckNodeAST)
    (hinv : parseInv stack ast) :
    parseInv (ast.length :: stack)
      (ast ++ [.Command ⟨.LoopStart, ast.length + 1⟩]) := by
  obtain ⟨hnd, hph, hok⟩ := hinv
  have hlt : ∀ j ∈ stack, j < ast.length := by
    intro j hj
    by_contra hge
    have := hph j hj
    rw [List.getElem?_eq_none (by omega)] at this
    cases this
  refine ⟨?_, ?_, ?_⟩
  · exact List.nodup_cons.mpr ⟨fun hmem => absurd (hlt _ hmem) (by omega), hnd⟩
  · intro j hj
    rcases List.mem_cons.mp hj with hje | hjm
    · subst hje
      rw [List.getElem?_concat_length]
    · exact getElem?_append_some _ _ _ _ (hph j hjm)
  · intro i hi
    have hi1 : i ≠ ast.length := fun he => hi (he ▸ List.mem_cons_self _ _)
    have hi2 : i ∉ stack := fun hm => hi (List.mem_cons_of_mem _ hm)
    by_cases hilen : i < ast.length
    · exact nodeOkStrong_append ast _ i hilen (hok i hi2)
    · unfold nodeOkStrong
      rw [List.getElem?_eq_none (by simp; omega)]
      trivial

end Braincrub

namespace Braincrub

/-- Closing a loop preserves the parser's invariant: the popped
placeholder becomes the resolved `Loop` node (taken target =
placeholder index + 1, false target = one past the appended loop-end),
the appended loop-end points back at it, and no other node or pending
placeholder is disturbed. -/
theorem parseInv_close (j : Nat) (stack : List Nat) (ast : List BrainfuckNodeAST)
    (hinv : parseInv (j :: stack) ast) :
    parseInv stack
      ((ast ++ [BrainfuckNodeAST.Command ⟨.LoopEnd, j⟩]).set j
        (BrainfuckNodeAST.Loop ⟨.LoopStart, j + 1, ast.length + 1⟩)) := by
  obtain ⟨hnd, hph, hok⟩ := hinv
  have hjstack : j ∉ stack := (List.nodup_cons.mp hnd).1
  have hnd' : stack.Nodup := (List.nodup_cons.mp hnd).2
  have hjph : ast[j]? = some (BrainfuckNodeAST.Command ⟨.LoopStart, j + 1⟩) :=
    hph j (List.mem_cons_self _ _)
  have hjlen : j < ast.length := by
    by_contra hge
    rw [List.getElem?_eq_none (by omega)] at hjph
    cases hjph
  have hstalt : ∀ i ∈ stack, i < ast.length := by
    intro i hi
    by_contra hge
    have h := hph i (List.mem_cons_of_mem _ hi)
    rw [List.getElem?_eq_none (by omega)] at h
    cases h
  have ha2j :
      ((ast ++ [BrainfuckNodeAST.Command ⟨.LoopEnd, j⟩]).set j
        (BrainfuckNodeAST.Loop ⟨.LoopStart, j + 1, ast.length + 1⟩))[j]?
      = some (BrainfuckNodeAST.Loop ⟨.LoopStart, j + 1, ast.length + 1⟩) :=
    List.getElem?_set_self (by simp; omega)
  have ha2len :
      ((ast ++ [BrainfuckNodeAST.Command ⟨.LoopEnd, j⟩]).set j
        (BrainfuckNodeAST.Loop ⟨.LoopStart, j + 1, ast.length + 1⟩))[ast.length]?
      = some (BrainfuckNodeAST.Command ⟨.LoopEnd, j⟩) := by
    rw [List.getElem?_set_ne (by omega), List.getElem?_concat_length]
  have ha2other : ∀ k, k ≠ j → k < ast.length →
      ((ast ++ [BrainfuckNodeAST.Command ⟨.LoopEnd, j⟩]).set j
        (BrainfuckNodeAST.Loop ⟨.LoopStart, j + 1, ast.length + 1⟩))[k]? = ast[k]? := by
    intro k hkj hkl
    rw [List.getElem?_set_ne (by omega), List.getElem?_append_left hkl]
  refine ⟨hnd', ?_, ?_⟩
  · intro j' hj'
    have hne : j' ≠ j := fun he => hjstack (he ▸ hj')
    rw [ha2other j' hne (hstalt j' hj')]
    exact hph j' (List.mem_cons_of_mem _ hj')
  · intro i hi
    by_cases hij : i = j
    · subst hij
      unfold nodeOkStrong
      rw [ha2j]
      exact ⟨rfl, rfl, ast.length, rfl, ha2len⟩
    · by_cases hieq : i = ast.length
      · subst hieq
        unfold nodeOkStrong
        rw [ha2len]
        refine ⟨fun _ => ?_, fun hne => absurd rfl hne⟩
        rw [ha2j]
      · by_cases hlt : i < ast.length
        · have hio : i ∉ j :: stack := by
            intro hm
            rcases List.mem_cons.mp hm with he | hm2
            exacts [hij he, hi hm2]
          have h := hok i hio
          unfold nodeOkStrong at h ⊢
          rw [ha2other i hij hlt]
          cases hcase : ast[i]? with
          | none => trivial
          | some node =>
            rw [hcase] at h
            cases node with
            | Loop linfo =>
              obtain ⟨h1, h2, k, h3, h4⟩ := h
              have hk_len : k < ast.length := by
                by_contra hge
                rw [List.getElem?_eq_none (by omega)] at h4
                cases h4
              have hkj : k ≠ j := by
                intro he
                rw [he, hjph] at h4
                simp at h4
              exact ⟨h1, h2, k, h3, by rw [ha2other k hkj hk_len]; exact h4⟩
            | Command cinfo =>
              obtain ⟨hend, hother⟩ := h
              refine ⟨fun hLE => ?_, hother⟩
              have h5 := hend hLE
              have hn_len : cinfo.next_position < ast.length := by
                by_contra hge
                rw [List.getElem?_eq_none (by omega)] at h5
                cases h5
              have hnj : cinfo.next_position ≠ j := by
                intro he
                rw [he, hjph] at h5
                simp at h5
              rw [ha2other _ hnj hn_len]
              exact h5
            | NoOp => exact h
        · unfold nodeOkStrong
          rw [List.getElem?_eq_none (by simp; omega)]
          trivial

end Braincrub

namespace Braincrub

/-- The parser's invariant holds of the empty initial state. -/
theorem parseInv_nil : parseInv [] [] := by
  refine ⟨List.nodup_nil, by simp, fun i _ => ?_⟩
  unfold nodeOkStrong
  rw [List.getElem?_eq_none (by simp)]
  trivial

/-- Any node sequence the scan returns satisfies the shape discipline at
every index. -/
theorem parseChars_ok_wf (l : List Char) :
    ∀ (stack : List Nat) (ast res : List BrainfuckNodeAST),
      parseInv stack ast → parseChars l stack ast = .ok res →
      ∀ i, nodeOkStrong res i := by
  induction l with
  | nil =>
    intro stack ast res hinv hok i
    cases stack with
    | nil =>
      simp [parseChars] at hok
      subst hok
      exact hinv.2.2 i (by simp)
    | cons j s' => simp [parseChars] at hok
  | cons c rest ih =>
    intro stack ast res hinv hok i
    cases hop : map_char_to_brainfuck_operation c with
    | none =>
      simp only [parseChars, hop] at hok
      exact ih stack ast res hinv hok i
    | some op =>
      cases op
      case LoopStart =>
        simp only [parseChars, hop] at hok
        exact ih _ _ res (parseInv_push stack ast hinv) hok i
      case LoopEnd =>
        cases stack with
        | nil => simp [parseChars, hop] at hok
        | cons j stack_rest =>
          simp only [parseChars, hop, List.length_append, List.length_cons,
            List.length_nil] at hok
          exact ih _ _ res (parseInv_close j stack_rest ast hinv) hok i
      all_goals
        simp only [parseChars, hop] at hok
        exact ih _ _ res
          (parseInv_append_command stack ast _ (by decide) (by decide) hinv) hok i

/-- The shape discipline for every successful top-level parse. -/
theorem from_source_wf (s : String) (ast : List BrainfuckNodeAST)
    (h : from_source_to_node_ast s = .ok ast) : ∀ i, nodeOkStrong ast i :=
  parseChars_ok_wf s.data [] [] ast parseInv_nil h

end Braincrub

namespace Braincrub

/-- C2: on every successful parse, each `Loop` node's taken target is
its own index + 1 and its false target is the index right after its
matching loop-end (the loop-end `Command` pointing back at it); each
loop-end `Command`'s target is its matching loop-start's index (the
`Loop` whose false target is one past the loop-end); and every other
`Command`'s target is its own index + 1. -/
theorem c2_parser_jump_invariant (s : String) (ast : List BrainfuckNodeAST)
    (h : from_source_to_node_ast s = .ok ast) : astMatchedWellFormed ast := by
  intro i node hnode
  have hi := from_source_wf s ast h i
  unfold nodeOkStrong at hi
  rw [hnode] at hi
  cases node with
  | Loop l => exact hi
  | Command c => exact ⟨hi.1, fun hne => (hi.2 hne).2⟩
  | NoOp => trivial

/-- Witness for C2: the invariant instantiated on the parse of
`++[+>]++`. -/
theorem c2_witness :
    astMatchedWellFormed
      [.Command ⟨.IncrementByOneCurrentCell, 1⟩,
       .Command ⟨.IncrementByOneCurrentCell, 2⟩,
       .Loop ⟨.LoopStart, 3, 6⟩,
       .Command ⟨.IncrementByOneCurrentCell, 4⟩,
       .Command ⟨.MovePointerRight, 5⟩,
       .Command ⟨.LoopEnd, 2⟩,
       .Command ⟨.IncrementByOneCurrentCell, 7⟩,
       .Command ⟨.IncrementByOneCurrentCell, 8⟩] :=
  c2_parser_jump_invariant "++[+>]++" _ rfl

end Braincrub

namespace Braincrub

/-- Every node satisfying the shape discipline is one the dispatch
`match` accepts. -/
theorem nodeOkStrong_dispatchable (ast : List BrainfuckNodeAST) (i : Nat)
    (node : BrainfuckNodeAST) (h : ast[i]? = some node)
    (hok : nodeOkStrong ast i) : dispatchable node := by
  unfold nodeOkStrong at hok
  rw [h] at hok
  cases node with
  | Loop l => exact hok.1
  | NoOp => exact hok
  | Command c =>
    show c.operation ≠ BrainfuckOperations.LoopStart
    by_cases hLE : c.operation = .LoopEnd
    · rw [hLE]; simp
    · exact (hok.2 hLE).1

/-- Dispatching an acceptable node never takes the defensive
`UnknownASTNode` branch. -/
theorem stepNode_not_unknown (st : InterpState) (node : BrainfuckNodeAST)
    (hd : dispatchable node) : stepNode st node ≠ .fatal .UnknownASTNode := by
  cases node with
  | NoOp => exact absurd hd (by simp [dispatchable])
  | Loop l =>
    have hl : l.operation = .LoopStart := hd
    simp only [stepNode, hl, if_true]
    split <;> simp
  | Command c =>
    cases hco : c.operation with
    | LoopStart => rw [dispatchable] at hd; exact absurd hco hd
    | MovePointerRight =>
      simp only [stepNode, hco]
      cases st.memory.move_pointer_position 1 <;> simp
    | MovePointerLeft =>
      simp only [stepNode, hco]
      cases st.memory.move_pointer_position (-1) <;> simp
    | IncrementByOneCurrentCell => simp [stepNode, hco]
    | DecrementByOneCurrentCell => simp [stepNode, hco]
    | OutputCommand => simp [stepNode, hco]
    | LoopEnd => simp [stepNode, hco]
    | InputCommand =>
      simp only [stepNode, hco]
      cases st.inputs with
      | nil => simp
      | cons first irest =>
        cases first with
        | ok v => cases hv : v.intoU8 <;> simp [hv]
        | error e => simp

/-- When every node of the loaded sequence is acceptable, the run never
returns `UnknownASTNode`, whatever the fuel and the starting state. -/
theorem runFromState_no_unknown (ast : List BrainfuckNodeAST)
    (hall : ∀ (i : Nat) (node : BrainfuckNodeAST),
      ast[i]? = some node → dispatchable node) :
    ∀ (fuel : Nat) (st : InterpState),
      runFromState ast fuel st ≠ .err .UnknownASTNode := by
  intro fuel
  induction fuel with
  | zero =>
    intro st
    rw [runFromState.eq_def]
    cases h : ast[st.position]? <;> simp [h]
  | succ f ih =>
    intro st
    rw [runFromState.eq_def]
    cases h : ast[st.position]? with
    | none => simp [h]
    | some node =>
      simp only [h]
      cases hstep : stepNode st node with
      | ok st' => simpa [hstep] using ih st'
      | panicked => simp [hstep]
      | fatal e =>
        simp only [hstep]
        intro hcontra
        apply stepNode_not_unknown st node (hall st.position node h)
        rw [hstep]
        simp only [RunOutcome.err.injEq] at hcontra
        rw [hcontra]

end Braincrub

namespace Braincrub

/-- C5: on parser output the defensive fallback is unreachable — for
every source the parser accepts, executing the resulting node sequence
(from any state, for any number of dispatches, and also through the
engine's `run` entry point) never returns `UnknownASTNode`. -/
theorem c5_no_unknown_node (s : String) (ast : List BrainfuckNodeAST)
    (h : from_source_to_node_ast s = .ok ast) :
    (∀ (fuel : Nat) (st : InterpState),
      runFromState ast fuel st ≠ .err .UnknownASTNode)
    ∧ (∀ (fuel : Nat) (st : InterpState),
      Interpreter.run fuel (some ast) st ≠ .err .UnknownASTNode) := by
  have hall : ∀ (i : Nat) (node : BrainfuckNodeAST),
      ast[i]? = some node → dispatchable node :=
    fun i node hnode =>
      nodeOkStrong_dispatchable ast i node hnode (from_source_wf s ast h i)
  have hloop := runFromState_no_unknown ast hall
  refine ⟨hloop, fun fuel st => ?_⟩
  unfold Interpreter.run
  by_cases hlen : ast.length = 0
  · simp [hlen]
  · simp only [hlen, if_false]
    exact hloop fuel _

/-- Witness for C5: the parse of `+` runs (to successful completion)
without ever producing `UnknownASTNode`. -/
theorem c5_witness :
    runFromState [.Command ⟨.IncrementByOneCurrentCell, 1⟩] 2
        (initialState (BrainfuckMemory.new 2) []) ≠ .err .UnknownASTNode :=
  (c5_no_unknown_node "+" [.Command ⟨.IncrementByOneCurrentCell, 1⟩] rfl).1 2
    (initialState (BrainfuckMemory.new 2) [])

end Braincrub
